import Mathlib

/-!
Verification of the MateriaJS binding/update engine (the `MateriaJS` class):
the path-addressed data store (`get`, `set`, `push`, `setInArray`, `pull`,
`destroy`), the handler/trigger registry and its update propagation
(`#handleBindingUpdate`, `#handle`), and the event-delegation registration
(`#registerEvent`).  The development models the client-side instance
(`isServer = false`); store values are modelled as JSON-like trees (native
prototype properties such as `length` and reference identity of objects are
outside the model, and evaluator closures are represented by opaque ids).
-/

namespace Materia

/-- A JSON-like runtime value.  `undefined` stands for JavaScript `undefined`
(the absent-property marker), `null` for `null`.  Objects are association
lists with first-match lookup (JavaScript objects have unique keys). -/
inductive Value where
  | undefined : Value
  | null : Value
  | str : String → Value
  | num : Int → Value
  | bool : Bool → Value
  | arr : List Value → Value
  | obj : List (String × Value) → Value

/- Structural equality test on values, modelling the `===` comparisons the
engine performs on query fields (in JavaScript `===` on two objects is
reference equality; the engine only compares scalar query fields in
practice, where `===` and structural equality coincide). -/
mutual

def Value.beq : Value → Value → Bool
  | .undefined, .undefined => true
  | .null, .null => true
  | .str a, .str b => a == b
  | .num a, .num b => a == b
  | .bool a, .bool b => a == b
  | .arr a, .arr b => Value.beqL a b
  | .obj a, .obj b => Value.beqF a b
  | _, _ => false

def Value.beqL : List Value → List Value → Bool
  | [], [] => true
  | a :: as, b :: bs => Value.beq a b && Value.beqL as bs
  | _, _ => false

def Value.beqF : List (String × Value) → List (String × Value) → Bool
  | [], [] => true
  | (k, a) :: as, (l, b) :: bs => k == l && Value.beq a b && Value.beqF as bs
  | _, _ => false

end

/-- The store: the engine's `#data` object, a mapping from hook names to
values. -/
abbrev Store := List (String × Value)

/-- The characters the engine splits binding strings on:
`binding.split(/[\.\[\]]/)`. -/
def isDelim (c : Char) : Bool := c == '.' || c == '[' || c == ']'

/-- Split a list of characters at delimiters, dropping empty segments
(`.filter(Boolean)` in the source).  `cur` holds the characters of the
current segment in reverse. -/
def splitAux : List Char → List Char → List String
  | [], cur => if cur.isEmpty then [] else [String.mk cur.reverse]
  | c :: cs, cur =>
    if isDelim c then
      (if cur.isEmpty then [] else [String.mk cur.reverse]) ++ splitAux cs []
    else splitAux cs (c :: cur)

/-- Segments of a binding, as `binding.split(/[\.\[\]]/).filter(Boolean)`: the ordered segments of a
binding path. -/
def splitBinding (s : String) : List String := splitAux s.toList []

/-- Numeric-segment test `part.match(/^\d+$/)`: the segment is entirely decimal digits. -/
def isNumericSegment (s : String) : Bool :=
  !s.isEmpty && s.toList.all Char.isDigit

/-- Parsing `parseInt(part, 10)` of an all-digit segment. -/
def segToNat (s : String) : Nat :=
  s.toList.foldl (fun n c => n * 10 + (c.toNat - '0'.toNat)) 0

/-- First-match association-list lookup; a missing key yields `undefined`,
as JavaScript property access does. -/
def lookupField : List (String × Value) → String → Value
  | [], _ => .undefined
  | (k, v) :: fs, key => if k == key then v else lookupField fs key

/-- Array indexing; an out-of-range index yields `undefined`. -/
def getIndex : List Value → Nat → Value
  | [], _ => .undefined
  | v :: _, 0 => v
  | _ :: xs, n + 1 => getIndex xs n

/-- The configured default: "every value defaults to an empty string unless
it is set" (`defaultType` in `get`). -/
def defaultValue : Value := .str ""

/-- An `undefined` result is a miss; anything else is a hit. -/
def hitOrMiss : Value → Option Value
  | .undefined => none
  | v => some v

/-- One step of `get`'s reduce, with the miss cases made explicit: `none`
exactly where the source returns `defaultType`.  A numeric segment demands
an array (`if (!Array.isArray(acc) || acc[index] === undefined)`); a
non-numeric segment is an object-key access (`acc[part] === undefined`;
built-in prototype properties of scalars and arrays are outside the
JSON-value model, so such accesses miss). -/
def lookupStep (acc : Value) (part : String) : Option Value :=
  match acc with
  | .null => none
  | .undefined => none
  | _ =>
    if isNumericSegment part then
      match acc with
      | .arr xs => hitOrMiss (getIndex xs (segToNat part))
      | _ => none
    else
      match acc with
      | .obj fs => hitOrMiss (lookupField fs part)
      | _ => none

/-- One step of `get`'s reduce: the looked-up value on a hit, the default
on a miss. -/
def getStep (acc : Value) (part : String) : Value :=
  (lookupStep acc part).getD defaultValue

/-- The engine's `MateriaJS.get`: split the binding, then reduce over the segments
starting from the `#data` object. -/
def get (data : Store) (binding : String) : Value :=
  (splitBinding binding).foldl getStep (Value.obj data)

/-- Strict traversal: `some` only when every step of `get` hits. -/
def resolvePath : Value → List String → Option Value
  | v, [] => some v
  | v, p :: ps =>
    match lookupStep v p with
    | some w => resolvePath w ps
    | none => none

/-- Validation `binding.trim() === ""`: the binding is empty or all whitespace. -/
def isBlank (s : String) : Bool := s.toList.all Char.isWhitespace

/-- JavaScript truthiness of a stored value. -/
def truthy : Value → Bool
  | .undefined => false
  | .null => false
  | .str s => !s.isEmpty
  | .num n => n != 0
  | .bool b => b
  | .arr _ => true
  | .obj _ => true

/-- Test `typeof x === "object"` (true for `null`, arrays and plain objects). -/
def isObjectType : Value → Bool
  | .null => true
  | .arr _ => true
  | .obj _ => true
  | _ => false

/-- The `target[key]` read during `set`'s traversal.  `target` is always a
container there; non-index reads on arrays and reads on scalars yield
`undefined` (expando/prototype properties are outside the model). -/
def rawGet (target : Value) (key : String) : Value :=
  match target with
  | .obj fs => lookupField fs key
  | .arr xs => if isNumericSegment key then getIndex xs (segToNat key) else .undefined
  | _ => .undefined

/-- Object-key assignment: replace the first occurrence or append. -/
def setField : List (String × Value) → String → Value → List (String × Value)
  | [], key, v => [(key, v)]
  | (k, w) :: fs, key, v =>
    if k == key then (key, v) :: fs else (k, w) :: setField fs key v

/-- Assignment `arr[i] = v`: in-range assignment replaces; past-the-end assignment
fills the gap with holes (`undefined`), as JavaScript arrays do. -/
def padSet (xs : List Value) (i : Nat) (v : Value) : List Value :=
  if i < xs.length then xs.set i v
  else xs ++ List.replicate (i - xs.length) .undefined ++ [v]

/-- Assignment `target[key] = v` on a container.  On an object the key is a plain
string (in `set`, numeric segments become object keys — the bracket regex
can never match a post-split segment).  On an array a numeric key is an
index; a non-index assignment to an array is an expando property, which no
reader modelled here can observe, so it is dropped.  `set` never assigns
into a scalar (it descends only into truthy `typeof "object"` values). -/
def assignKey (target : Value) (key : String) (v : Value) : Value :=
  match target with
  | .obj fs => .obj (setField fs key v)
  | .arr xs => if isNumericSegment key then .arr (padSet xs (segToNat key) v) else .arr xs
  | other => other

/-- The key-traversal loop of `MateriaJS.set`.  On the last key the value
is assigned; on an intermediate key a falsy current value is replaced by a
fresh `{}` (auto-vivification), a truthy non-object aborts with a logged
error (`none`, store unchanged — nothing was mutated before the abort),
and a truthy object is descended into.  The source mutates in place; this
rebuilds the spine, which is observationally the same traversal. -/
def setPath (target : Value) (keys : List String) (value : Value) : Option Value :=
  match keys with
  | [] => some target
  | [k] => some (assignKey target k value)
  | k :: rest =>
    let cur := rawGet target k
    if !truthy cur then
      match setPath (Value.obj []) rest value with
      | some sub => some (assignKey target k sub)
      | none => none
    else if !isObjectType cur then
      none
    else
      match setPath cur rest value with
      | some sub => some (assignKey target k sub)
      | none => none

/-- The engine's `MateriaJS.set`: validate the binding (non-empty after trim) and the
value (`undefined` rejected), then walk the keys.  `none` means a logged
error with the store left unchanged; on `some` the store is updated and
`#handleBindingUpdate(binding)` runs. -/
def setData (data : Store) (binding : String) (value : Value) : Option Store :=
  if isBlank binding then none
  else
    match value with
    | .undefined => none
    | _ =>
      match setPath (Value.obj data) (splitBinding binding) value with
      | some (Value.obj d2) => some d2
      | _ => none

/-- In-place mutation of a container previously returned by `get`
(`target.push(...)`, `target[i] = v`, `target.splice(i, 1)`): the write
lands on the very store slot the `get` traversal resolved.  Modelled by
re-running the `set` traversal with the new container; when `get` resolved
a container at the path the two coincide (proved below as
`get_writeBack`). -/
def writeBack (data : Store) (binding : String) (w : Value) : Store :=
  match setPath (Value.obj data) (splitBinding binding) w with
  | some (Value.obj d2) => d2
  | _ => data

/-- Outcome of `push`: the resulting store, whether
`#handleBindingUpdate` fired, and whether a `console.error` was logged. -/
structure PushResult where
  data : Store
  fired : Bool
  errored : Bool

/-- The engine's `MateriaJS.push`.  An unset (default `""`) target is re-initialized:
`target = []; this.set(binding, target)` and the in-place
`target.push(value)` then leaves `[value]` in the stored slot — one
traversal, modelled as a single `set` of `[value]`.  If that `set` fails
(truthy non-object intermediate, logged error) the local push is invisible
to the store, yet `#handleBindingUpdate` still fires, because the local
`target` is an array.  A falsy non-default target logs "is not defined"; a
truthy non-array logs "is not an array"; both leave the store unchanged.
An existing array gets the value appended in place, then the update
fires. -/
def push (data : Store) (binding : String) (value : Value) : PushResult :=
  if isBlank binding then ⟨data, false, true⟩
  else
    match value with
    | .undefined => ⟨data, false, true⟩
    | _ =>
      match get data binding with
      | .str "" =>
        match setData data binding (Value.arr [value]) with
        | some d2 => ⟨d2, true, false⟩
        | none => ⟨data, true, true⟩
      | .arr xs => ⟨writeBack data binding (Value.arr (xs ++ [value])), true, false⟩
      | t => if truthy t then ⟨data, false, true⟩ else ⟨data, false, true⟩

/-- The `queryFunction` of `setInArray`/`pull`:
`Object.keys(query).every((key) => element[key] === query[key])`. -/
def matchesQuery (query : List (String × Value)) (el : Value) : Bool :=
  query.all (fun kv => Value.beq (rawGet el kv.1) kv.2)

/-- Outcome of `setInArray`/`pull`: the resulting store, the binding string
passed to `#handleBindingUpdate` (if any), and whether an error/warning
was logged. -/
structure ArrayOpResult where
  data : Store
  fired : Option String
  errored : Bool
  warned : Bool

/-- The engine's `MateriaJS.setInArray`: on an array target, replace the first element
matching the query (in place) or append the value, then report the change
at `binding[index]`.  A falsy target ("not defined") or a non-array target
("not an array") logs an error and changes nothing. -/
def setInArray (data : Store) (binding : String) (query : List (String × Value))
    (value : Value) : ArrayOpResult :=
  match get data binding with
  | .arr xs =>
    match xs.findIdx? (matchesQuery query) with
    | some i =>
      ⟨writeBack data binding (Value.arr (xs.set i value)),
       some (binding ++ "[" ++ Nat.repr i ++ "]"), false, false⟩
    | none =>
      ⟨writeBack data binding (Value.arr (xs ++ [value])),
       some (binding ++ "[" ++ Nat.repr xs.length ++ "]"), false, false⟩
  | _ => ⟨data, none, true, false⟩

/-- The engine's `MateriaJS.pull`: on an array target, splice out the first element
matching the query and report the change at the whole binding; warn
(non-fatal) when nothing matches.  A falsy or non-array target logs an
error. -/
def pull (data : Store) (binding : String) (query : List (String × Value)) :
    ArrayOpResult :=
  match get data binding with
  | .arr xs =>
    match xs.findIdx? (matchesQuery query) with
    | some i => ⟨writeBack data binding (Value.arr (xs.eraseIdx i)), some binding, false, false⟩
    | none => ⟨data, none, false, true⟩
  | _ => ⟨data, none, true, false⟩

/-- A handler record as stored in `#handlers[binding]` by
`#processFunctionValue`: `{ element, func, property, pipe }`.  `element` is
the `data-handler-id` string (or `null` after a failed resolution).  The
evaluator closure and its pipe are represented by an opaque `funcId` — the
engine never inspects them, it only calls the evaluator with the current
bound value. -/
structure Handler where
  element : Option String
  funcId : Nat
  property : String
deriving DecidableEq

/-- A trigger record as stored in `#triggers[absoluteTriggerPath]`:
`{ binding, handler }` — the handler's own binding and a reference to its
handler record. -/
structure Trigger where
  binding : String
  handler : Handler
deriving DecidableEq

/-- First-match lookup in a string-keyed table (`this.#handlers[binding]`,
`this.#triggers[binding]`, `this.#delegate[event]`; JavaScript object keys
are unique). -/
def tableFind {α : Type} : List (String × α) → String → Option α
  | [], _ => none
  | (k, v) :: rest, key => if k == key then some v else tableFind rest key

/-- Deletion `delete table[key]`. -/
def tableDelete {α : Type} (t : List (String × α)) (key : String) : List (String × α) :=
  t.filter (fun p => p.1 != key)

/-- Apply `f` to the list stored at `key` (in-place list mutation such as
`push`/`splice` on `table[key]`). -/
def tableModify {α : Type} : List (String × α) → String → (α → α) → List (String × α)
  | [], _, _ => []
  | (k, v) :: rest, key, f =>
    if k == key then (k, f v) :: rest else (k, v) :: tableModify rest key f

abbrev HandlersTable := List (String × List Handler)

abbrev TriggersTable := List (String × List Trigger)

/-- The handler list registered exactly at a binding (empty when the key is
absent). -/
def handlerList (hs : HandlersTable) (binding : String) : List Handler :=
  (tableFind hs binding).getD []

/-- The trigger list registered exactly at a binding. -/
def triggerList (ts : TriggersTable) (binding : String) : List Trigger :=
  (tableFind ts binding).getD []

/-- The update propagation `#handleBindingUpdate(binding)` on the client: `checkHandlers` invokes
`#handle(binding, handler)` for every handler stored exactly at `binding`,
then `checkTriggers` invokes `#handle(trigger.binding, trigger.handler)`
for every trigger stored exactly at `binding` (the destructuring
`const { binding, handler } = trigger` shadows the updated path with the
handler's own binding).  Lookup is exact object-key equality — no wildcard
or prefix matching.  The result is the ordered list of `(binding, handler)`
pairs passed to `#handle`. -/
def handleBindingUpdate (hs : HandlersTable) (ts : TriggersTable) (binding : String) :
    List (String × Handler) :=
  (handlerList hs binding).map (fun h => (binding, h))
    ++ (triggerList ts binding).map (fun t => (t.binding, t.handler))

/-- The invocations `#handleBindingUpdate` performs against a store, each
paired with the bound value `#handle` hands the evaluator:
`func(this.get(binding), elements, pipe)` — always the current value of the
pair's own binding. -/
def invocations (data : Store) (hs : HandlersTable) (ts : TriggersTable)
    (binding : String) : List (String × Handler × Value) :=
  (handleBindingUpdate hs ts binding).map (fun p => (p.1, p.2, get data p.1))

/-- A `set(binding, value)` call followed by its update propagation: on a failed
set nothing fires; on success every handler/trigger registered exactly at
`binding` is invoked against the updated store. -/
def setInvocations (data : Store) (hs : HandlersTable) (ts : TriggersTable)
    (binding : String) (value : Value) : List (String × Handler × Value) :=
  match setData data binding value with
  | some d2 => invocations d2 hs ts binding
  | none => []

/-- An element attached to the live document, carrying its
`data-handler-id`, whether `document.body.contains` it, and whether it is
the root `HTML` element. -/
structure DocElem where
  id : String
  inBody : Bool
  isHtml : Bool
deriving DecidableEq

/-- The query `document.querySelector("[data-handler-id='id']")`: only attached
elements are found. -/
def qsById (doc : List DocElem) (id : String) : Option DocElem :=
  doc.find? (fun e => e.id == id)

/-- Replace the first occurrence of `h` in a handler list (in-place object
mutation of a record that sits in the list). -/
def replaceFirst : List Handler → Handler → Handler → List Handler
  | [], _, _ => []
  | x :: xs, h, h2 => if x == h then h2 :: xs else x :: replaceFirst xs h h2

/-- Removal `handlers.splice(handlers.indexOf(handler), 1)`. -/
def removeFirst : List Handler → Handler → List Handler
  | [], _ => []
  | x :: xs, h => if x == h then xs else x :: removeFirst xs h

/-- The engine's `MateriaJS.#handle(binding, handler)` on the client.  The evaluator is
called first (`func(this.get(binding), elements, pipe)`); the element check
only decides whether its result is applied.  A string `element` is resolved
by `data-handler-id`; when the query finds nothing, the record's element
reference becomes `null` and `#setElementAttribute(null, ...)` is a no-op —
the record is NOT pruned.  Only a record holding a resolved element that is
outside `document.body` (and not the `HTML` root) is pruned and skipped.
Otherwise the result is applied to the element at the record's property.
Returns the updated handlers table and the applied DOM mutation
`(element id, property)`, if any. -/
def handle (doc : List DocElem) (hs : HandlersTable) (binding : String) (h : Handler) :
    HandlersTable × Option (String × String) :=
  match h.element with
  | some id =>
    match qsById doc id with
    | some el =>
      if !el.inBody && !el.isHtml then
        (tableModify hs binding (fun l => removeFirst l h), none)
      else
        (hs, some (el.id, h.property))
    | none =>
      (tableModify hs binding (fun l => replaceFirst l h { h with element := none }), none)
  | none => (hs, none)

/-- The DOM mutations a `set(binding, value)` performs, each tagged with
the handler it went through: every invocation is passed to `#handle`, whose
element check decides whether a mutation is applied.  (Each invocation is
judged against the pre-pass tables and document; pruning/nulling only
shrinks the tables and applies no mutation, so the applied-mutation set is
unaffected.) -/
def setMutations (doc : List DocElem) (data : Store) (hs : HandlersTable)
    (ts : TriggersTable) (binding : String) (value : Value) :
    List (Handler × String × String) :=
  (setInvocations data hs ts binding value).filterMap
    (fun p => ((handle doc hs p.1 p.2.1).2).map (fun m => (p.2.1, m.1, m.2)))

/-- Deletion `delete target[last]` along a key path, mirroring `destroy`'s recursive
`deleteData`.  `none` models the `TypeError` thrown when an intermediate
value is `null`/`undefined` (`delete undefined[k]` / reading a property of
`undefined`).  Deleting an object key removes it; deleting an array index
leaves a hole (`undefined`); `delete` on a (boxed) scalar's missing
property is a no-op. -/
def deleteData : Value → List String → Option Value
  | target, [] => some target
  | target, [k] =>
    match target with
    | .obj fs => some (.obj (fs.filter (fun p => p.1 != k)))
    | .arr xs =>
      if isNumericSegment k then
        if segToNat k < xs.length then some (.arr (xs.set (segToNat k) .undefined))
        else some (.arr xs)
      else some (.arr xs)
    | .null => none
    | .undefined => none
    | s => some s
  | target, k :: rest =>
    match target with
    | .null => none
    | .undefined => none
    | _ =>
      match deleteData (rawGet target k) rest with
      | some sub => some (assignKey target k sub)
      | none => none

/-- The delegate record `#registerEvent` stores:
`{ target, func, pipe, preventDefault }` (the function's `name` is folded
into the opaque `funcId`). -/
structure EventData where
  target : String
  funcId : Nat
  pipe : List (String × Value)
  preventDefault : Bool

/-- One engine instance's binding-relevant state: the `#data` store, the
`#handlers` and `#triggers` tables, the `#delegate` table, and the set of
live document elements the handler ids can resolve to. -/
structure Engine where
  data : Store
  handlers : HandlersTable
  triggers : TriggersTable
  delegate : List (String × List EventData)
  doc : List DocElem

/-- The engine's `MateriaJS.review()`: the debugging snapshot of data, handlers,
triggers and delegate. -/
structure Review where
  data : Store
  handlers : HandlersTable
  triggers : TriggersTable
  delegate : List (String × List EventData)

/-- The function `review()` returns the live tables. -/
def review (st : Engine) : Review :=
  ⟨st.data, st.handlers, st.triggers, st.delegate⟩

/-- The engine's `MateriaJS.destroy(binding)` (binding-string branch): if the hook is
truthy, recursively delete the value at the binding (`none` when that
recursion throws); detach from the document every element referenced (by a
truthy `element` id) by a handler keyed exactly at the binding; finally
delete the handler list at that key.  Triggers and delegates are left
untouched. -/
def destroy (st : Engine) (binding : String) : Option Engine :=
  match splitBinding binding with
  | [] => some st
  | hook :: _ =>
    let step1 : Option Store :=
      if truthy (lookupField st.data hook) then
        match deleteData (Value.obj st.data) (splitBinding binding) with
        | some (Value.obj d2) => some d2
        | _ => none
      else some st.data
    match step1 with
    | none => none
    | some d2 =>
      let ids := (handlerList st.handlers binding).filterMap
        (fun h => match h.element with
          | some id => if id.isEmpty then none else some id
          | none => none)
      some { st with
        data := d2,
        handlers := tableDelete st.handlers binding,
        doc := st.doc.filter (fun e => !(ids.contains e.id)) }

/-- The event-delegation state: the `#delegate` table, the event kinds for
which `#createEventListener` has installed a native document-level
listener, and the `#stashedLoadEvent` slot. -/
structure DelegationState where
  delegate : List (String × List EventData)
  installed : List String
  stashedLoadEvent : Option EventData

/-- One entry of `#registerEvent`'s promotion loop,
`if (typeof pipe[key] === "object" && pipe[key].path) pipe[key] = pipe[key].path`:
an object entry with a truthy `path` field is replaced by that path value;
a `null` entry throws a `TypeError` (`typeof null === "object"` holds and
`null.path` then throws) — modelled as `none`; arrays are `typeof
"object"` too but carry no own `path` (expandos are outside the model), so
they pass through; every non-object entry fails the `typeof` test and
passes through. -/
def promoteEntry : Value → Option Value
  | .obj fs =>
    if truthy (lookupField fs "path") then some (lookupField fs "path")
    else some (.obj fs)
  | .null => none
  | v => some v

/-- The `for (let key in pipe)` promotion loop: promote every entry, or
throw (`none`) when a `null` entry is reached.  (The source throws at the
first `null` entry, leaving earlier entries promoted in place; that
partially promoted pipe object is discarded together with the exception,
so all-or-nothing promotion is observationally the same.) -/
def promotePipe (pipe : List (String × Value)) : Option (List (String × Value)) :=
  match pipe with
  | [] => some []
  | kv :: rest =>
    match promoteEntry kv.2, promotePipe rest with
    | some v, some rest2 => some ((kv.1, v) :: rest2)
    | _, _ => none

/-- The listener-install step at the head of `#registerEvent`: when the
event kind has no entry in `#delegate` yet, an empty list is created and
`#createEventListener(event)` installs the one native listener for that
kind. -/
def installListener (st : DelegationState) (event : String) : DelegationState :=
  if (tableFind st.delegate event).isSome then st
  else { st with delegate := st.delegate ++ [(event, [])],
                 installed := st.installed ++ [event] }

/-- The tail of `#registerEvent`: a client-side `load` registration is
stashed in `#stashedLoadEvent` (overwriting any earlier stash, NOT
appended); any other record is appended to `#delegate[event]`. -/
def registerEventCore (st1 : DelegationState) (event : String) (ed : EventData) :
    DelegationState :=
  if event == "load" then { st1 with stashedLoadEvent := some ed }
  else { st1 with delegate := tableModify st1.delegate event (fun l => l ++ [ed]) }

/-- The engine's `MateriaJS.#registerEvent` on the client: the listener
install runs first; then the pipe promotion loop runs — if it throws, the
`TypeError` escapes `#registerEvent` with the install already performed
and no record stored (the Boolean marks the escaped throw); otherwise the
record is built and stored by `registerEventCore`.  (Install and promotion
touch disjoint state, so performing the install inside both match arms is
the same as performing it first, as the source does.) -/
def registerEvent (st : DelegationState) (event : String) (target : String)
    (pipe : List (String × Value)) (funcId : Nat) (preventDefault : Bool) :
    DelegationState × Bool :=
  match promotePipe pipe with
  | none => (installListener st event, true)
  | some pipe2 =>
    (registerEventCore (installListener st event) event
      ⟨target, funcId, pipe2, preventDefault⟩, false)

/-- The delegate records registered for an event kind. -/
def eventList (st : DelegationState) (event : String) : List EventData :=
  (tableFind st.delegate event).getD []

/-- The delegation-state invariant: an event kind has a `#delegate` entry
exactly when its native listener is installed, and no kind is installed
twice. -/
def DelegWF (st : DelegationState) : Prop :=
  (∀ e, (tableFind st.delegate e).isSome ↔ e ∈ st.installed) ∧ st.installed.Nodup

/-! ### Traversal lemmas -/

theorem hitOrMiss_ne_some_undefined (v : Value) : hitOrMiss v ≠ some .undefined := by
  cases v <;> simp [hitOrMiss]

theorem lookupStep_ne_some_undefined (acc : Value) (p : String) :
    lookupStep acc p ≠ some .undefined := by
  cases acc <;>
    cases hn : isNumericSegment p <;>
      simp [lookupStep, hn, hitOrMiss_ne_some_undefined]

theorem getStep_ne_undefined (acc : Value) (p : String) : getStep acc p ≠ .undefined := by
  unfold getStep
  cases h : lookupStep acc p with
  | none => simp [defaultValue]
  | some w =>
    simp only [Option.getD_some]
    intro hw
    rw [hw] at h
    exact lookupStep_ne_some_undefined acc p h

theorem lookupStep_default (p : String) : lookupStep defaultValue p = none := by
  unfold defaultValue lookupStep
  cases isNumericSegment p <;> simp

theorem foldl_getStep_default (ps : List String) :
    List.foldl getStep defaultValue ps = defaultValue := by
  induction ps with
  | nil => rfl
  | cons p ps ih =>
    simpa [List.foldl, getStep, lookupStep_default] using ih

/-- A non-container (scalar, `null`, `undefined`) misses at every step. -/
theorem lookupStep_non_container (v : Value) (p : String)
    (hobj : ∀ fs, v ≠ .obj fs) (harr : ∀ xs, v ≠ .arr xs) :
    lookupStep v p = none := by
  cases v <;> simp only [lookupStep] <;>
    first
      | rfl
      | (cases isNumericSegment p <;> simp_all)

theorem lookupStep_some_container (v : Value) (p : String) (w : Value)
    (h : lookupStep v p = some w) :
    (∃ fs, v = .obj fs) ∨ (∃ xs, v = .arr xs) := by
  cases v <;> first
    | exact Or.inl ⟨_, rfl⟩
    | exact Or.inr ⟨_, rfl⟩
    | (exfalso
       revert h
       simp only [lookupStep]
       cases isNumericSegment p <;> simp)

/-- If the strict traversal misses anywhere, `get`'s fold yields the
default value. -/
theorem resolve_none_foldl (ps : List String) :
    ∀ acc, resolvePath acc ps = none → List.foldl getStep acc ps = defaultValue := by
  induction ps with
  | nil => intro acc h; simp [resolvePath] at h
  | cons p ps ih =>
    intro acc h
    simp only [resolvePath] at h
    simp only [List.foldl]
    cases hstep : lookupStep acc p with
    | none =>
      have : getStep acc p = defaultValue := by simp [getStep, hstep]
      rw [this]
      exact foldl_getStep_default ps
    | some w =>
      rw [hstep] at h
      have : getStep acc p = w := by simp [getStep, hstep]
      rw [this]
      exact ih w h

theorem hitOrMiss_of_ne_undefined (v : Value) (h : v ≠ .undefined) : hitOrMiss v = some v := by
  cases v <;> simp [hitOrMiss] at h ⊢

theorem hitOrMiss_eq_some (v w : Value) (h : hitOrMiss v = some w) : v = w := by
  cases v <;> simp_all [hitOrMiss]

/-- If the strict traversal resolves, `get`'s fold returns the same
value. -/
theorem resolve_some_foldl (ps : List String) :
    ∀ acc w, resolvePath acc ps = some w → List.foldl getStep acc ps = w := by
  induction ps with
  | nil =>
    intro acc w h
    simp only [resolvePath, Option.some.injEq] at h
    simpa using h
  | cons p ps ih =>
    intro acc w h
    simp only [resolvePath] at h
    cases hstep : lookupStep acc p with
    | none => rw [hstep] at h; exact absurd h (by simp)
    | some w1 =>
      rw [hstep] at h
      simp only [List.foldl]
      have : getStep acc p = w1 := by simp [getStep, hstep]
      rw [this]
      exact ih w1 w h

/-! ### Alignment of the `set` traversal with the `get` traversal -/

theorem lookupField_setField (fs : List (String × Value)) (k : String) (v : Value) :
    lookupField (setField fs k v) k = v := by
  induction fs with
  | nil => simp [setField, lookupField]
  | cons p fs ih =>
    obtain ⟨k2, w⟩ := p
    cases h : (k2 == k) <;> simp [setField, lookupField, h, ih]

theorem getIndex_set (xs : List Value) (i : Nat) (v : Value) (h : i < xs.length) :
    getIndex (xs.set i v) i = v := by
  induction xs generalizing i with
  | nil => simp at h
  | cons x xs ih =>
    cases i with
    | zero => rfl
    | succ n =>
      simp only [List.set, getIndex]
      exact ih n (by simpa using h)

theorem getIndex_lt_of_ne_undefined (xs : List Value) (i : Nat)
    (h : getIndex xs i ≠ .undefined) : i < xs.length := by
  induction xs generalizing i with
  | nil => simp [getIndex] at h
  | cons x xs ih =>
    cases i with
    | zero => simp
    | succ n =>
      have := ih n (by simpa [getIndex] using h)
      simpa using this

theorem lookupStep_assignKey_obj (fs : List (String × Value)) (k : String) (y : Value)
    (hn : isNumericSegment k = false) (hy : y ≠ .undefined) :
    lookupStep (assignKey (.obj fs) k y) k = some y := by
  simp [assignKey, lookupStep, hn, lookupField_setField, hitOrMiss_of_ne_undefined _ hy]

theorem lookupStep_assignKey_arr (xs : List Value) (k : String) (y : Value)
    (hn : isNumericSegment k = true) (hlt : segToNat k < xs.length) (hy : y ≠ .undefined) :
    lookupStep (assignKey (.arr xs) k y) k = some y := by
  simp [assignKey, lookupStep, hn, padSet, hlt, getIndex_set, hitOrMiss_of_ne_undefined _ hy]

/-- A hit at `k` means the `set`-side read (`target[k]`) sees the same
value, and an assignment at `k` is visible to the `get`-side step. -/
theorem assign_aligned (acc : Value) (k : String) (w1 y : Value)
    (hstep : lookupStep acc k = some w1) (hy : y ≠ .undefined) :
    rawGet acc k = w1 ∧ lookupStep (assignKey acc k y) k = some y := by
  rcases lookupStep_some_container acc k w1 hstep with ⟨fs, rfl⟩ | ⟨xs, rfl⟩
  · cases hn : isNumericSegment k
    · refine ⟨?_, lookupStep_assignKey_obj fs k y hn hy⟩
      have h2 := hstep
      simp only [lookupStep, hn] at h2
      simpa [rawGet] using hitOrMiss_eq_some _ _ h2
    · exfalso
      simp [lookupStep, hn] at hstep
  · cases hn : isNumericSegment k
    · exfalso
      simp [lookupStep, hn] at hstep
    · have h2 := hstep
      simp only [lookupStep, hn] at h2
      have hidx : getIndex xs (segToNat k) = w1 := hitOrMiss_eq_some _ _ h2
      have hw1 : w1 ≠ Value.undefined := by
        intro hw
        exact lookupStep_ne_some_undefined _ _ (hw ▸ hstep)
      have hlt := getIndex_lt_of_ne_undefined xs (segToNat k) (hidx ▸ hw1)
      refine ⟨by simp [rawGet, hn, hidx], lookupStep_assignKey_arr xs k y hn hlt hy⟩

theorem container_of_resolve_cons (v : Value) (r : String) (rest : List String)
    (w : Value) (h : resolvePath v (r :: rest) = some w) :
    truthy v = true ∧ isObjectType v = true ∧ v ≠ Value.undefined := by
  simp only [resolvePath] at h
  cases hstep : lookupStep v r with
  | none => rw [hstep] at h; exact absurd h (by simp)
  | some w2 =>
    rcases lookupStep_some_container v r w2 hstep with ⟨fs, rfl⟩ | ⟨xs, rfl⟩ <;>
      exact ⟨rfl, rfl, by simp⟩

/-- The central alignment lemma: when the `get` traversal strictly resolves
a path, the `set` traversal on the same path succeeds, and the written
value is what `get` subsequently resolves there. -/
theorem setPath_resolve :
    ∀ (ps : List String) (acc w y : Value), resolvePath acc ps = some w →
      ps ≠ [] → y ≠ Value.undefined →
      ∃ acc2, setPath acc ps y = some acc2 ∧ resolvePath acc2 ps = some y := by
  intro ps
  induction ps with
  | nil => intro acc w y _ hne _; exact absurd rfl hne
  | cons p rest ih =>
    intro acc w y hres _ hy
    simp only [resolvePath] at hres
    cases hstep : lookupStep acc p with
    | none => rw [hstep] at hres; exact absurd hres (by simp)
    | some w1 =>
      rw [hstep] at hres
      cases rest with
      | nil =>
        refine ⟨assignKey acc p y, by simp [setPath], ?_⟩
        have := (assign_aligned acc p w1 y hstep hy).2
        simp [resolvePath, this]
      | cons r rest2 =>
        obtain ⟨sub, hset, hres2⟩ := ih w1 w y hres (by simp) hy
        obtain ⟨htru, hobj, -⟩ := container_of_resolve_cons w1 r rest2 w hres
        obtain ⟨hraw, -⟩ := assign_aligned acc p w1 y hstep hy
        obtain ⟨-, -, hsubne⟩ := container_of_resolve_cons sub r rest2 y hres2
        refine ⟨assignKey acc p sub, ?_, ?_⟩
        · simp only [setPath, hraw, htru, hobj, Bool.not_true, Bool.false_eq_true,
            if_false, hset]
        · have := (assign_aligned acc p w1 sub hstep hsubne).2
          simp only [resolvePath, this]
          exact hres2

/-- When `get` yields an array, the strict traversal resolved it (misses
poison the fold with the default string, which is not an array). -/
theorem get_resolve_arr (data : Store) (binding : String) (xs : List Value)
    (h : get data binding = .arr xs) :
    resolvePath (Value.obj data) (splitBinding binding) = some (.arr xs)
    ∧ splitBinding binding ≠ [] := by
  have hne : splitBinding binding ≠ [] := by
    intro h0
    rw [get, h0] at h
    simp at h
  cases hr : resolvePath (Value.obj data) (splitBinding binding) with
  | none =>
    have := resolve_none_foldl (splitBinding binding) (Value.obj data) hr
    rw [get] at h
    rw [this] at h
    simp [defaultValue] at h
  | some w =>
    have := resolve_some_foldl (splitBinding binding) (Value.obj data) w hr
    rw [get] at h
    rw [this] at h
    exact ⟨by rw [h], hne⟩

/-- A successful `set` traversal from the root object returns an object. -/
theorem setPath_obj (d : List (String × Value)) (ps : List String) (y v : Value)
    (hne : ps ≠ []) (h : setPath (Value.obj d) ps y = some v) :
    ∃ d2, v = Value.obj d2 := by
  cases ps with
  | nil => exact absurd rfl hne
  | cons k rest =>
    cases rest with
    | nil =>
      simp only [setPath, Option.some.injEq] at h
      exact ⟨_, by rw [← h]; rfl⟩
    | cons r rest2 =>
      simp only [setPath] at h
      split at h
      · split at h
        · simp only [Option.some.injEq] at h
          exact ⟨_, by rw [← h]; rfl⟩
        · exact absurd h (by simp)
      · split at h
        · exact absurd h (by simp)
        · split at h
          · simp only [Option.some.injEq] at h
            exact ⟨_, by rw [← h]; rfl⟩
          · exact absurd h (by simp)

/-- In-place mutation of an array `get` resolved is read back by `get`. -/
theorem get_writeBack (data : Store) (binding : String) (xs : List Value) (y : Value)
    (h : get data binding = .arr xs) (hy : y ≠ .undefined) :
    get (writeBack data binding y) binding = y := by
  obtain ⟨hres, hne⟩ := get_resolve_arr data binding xs h
  obtain ⟨acc2, hset, hres2⟩ :=
    setPath_resolve (splitBinding binding) (Value.obj data) (Value.arr xs) y hres hne hy
  obtain ⟨d2, rfl⟩ := setPath_obj data _ y acc2 hne hset
  unfold writeBack
  rw [hset]
  exact resolve_some_foldl _ _ _ hres2

/-! ### Deletion lemmas -/

theorem lookupField_filter_ne (fs : List (String × Value)) (k : String) :
    lookupField (fs.filter (fun p => p.1 != k)) k = .undefined := by
  induction fs with
  | nil => rfl
  | cons p fs ih =>
    obtain ⟨k2, w⟩ := p
    cases h : (k2 == k)
    · simpa [List.filter, bne, h, lookupField] using ih
    · simpa [List.filter, bne, h] using ih

theorem getIndex_ge (xs : List Value) (i : Nat) (h : ¬ i < xs.length) :
    getIndex xs i = .undefined := by
  by_contra hne
  exact h (getIndex_lt_of_ne_undefined xs i hne)

theorem getIndex_set_undefined (xs : List Value) (i : Nat) (h : i < xs.length) :
    getIndex (xs.set i Value.undefined) i = .undefined := getIndex_set xs i _ h

theorem getStep_non_container (v : Value) (p : String)
    (hobj : ∀ fs, v ≠ .obj fs) (harr : ∀ xs, v ≠ .arr xs) :
    getStep v p = defaultValue := by
  simp [getStep, lookupStep_non_container v p hobj harr]

theorem deleteData_none_of_nullish (ps : List String) (hne : ps ≠ []) :
    deleteData Value.undefined ps = none ∧ deleteData Value.null ps = none := by
  cases ps with
  | nil => exact absurd rfl hne
  | cons k rest =>
    cases rest <;> simp [deleteData]

theorem deleteData_ne_undefined (ps : List String) :
    ∀ v v2, deleteData v ps = some v2 → v ≠ .undefined → v2 ≠ .undefined := by
  cases ps with
  | nil =>
    intro v v2 h hv
    simp only [deleteData, Option.some.injEq] at h
    rw [← h]; exact hv
  | cons k rest =>
    intro v v2 h hv
    cases rest with
    | nil =>
      cases v with
      | undefined => exact absurd h (by simp [deleteData])
      | null => exact absurd h (by simp [deleteData])
      | obj fs =>
        simp only [deleteData, Option.some.injEq] at h
        rw [← h]; simp
      | arr xs =>
        simp only [deleteData] at h
        split at h
        · split at h <;> (simp only [Option.some.injEq] at h; rw [← h]; simp)
        · simp only [Option.some.injEq] at h; rw [← h]; simp
      | str s =>
        simp only [deleteData, Option.some.injEq] at h
        rw [← h]; simp
      | num n =>
        simp only [deleteData, Option.some.injEq] at h
        rw [← h]; simp
      | bool b =>
        simp only [deleteData, Option.some.injEq] at h
        rw [← h]; simp
    | cons r rest2 =>
      cases v with
      | undefined => exact absurd h (by simp [deleteData])
      | null => exact absurd h (by simp [deleteData])
      | obj fs =>
        simp only [deleteData] at h
        split at h
        · simp only [Option.some.injEq] at h; rw [← h]; simp [assignKey]
        · exact absurd h (by simp)
      | arr xs =>
        simp only [deleteData] at h
        split at h
        · simp only [Option.some.injEq] at h
          rw [← h]
          simp only [assignKey]
          split <;> simp
        · exact absurd h (by simp)
      | str s =>
        simp only [deleteData] at h
        split at h
        · simp only [Option.some.injEq] at h; rw [← h]; simp [assignKey]
        · exact absurd h (by simp)
      | num n =>
        simp only [deleteData] at h
        split at h
        · simp only [Option.some.injEq] at h; rw [← h]; simp [assignKey]
        · exact absurd h (by simp)
      | bool b =>
        simp only [deleteData] at h
        split at h
        · simp only [Option.some.injEq] at h; rw [← h]; simp [assignKey]
        · exact absurd h (by simp)

/-- After a successful `deleteData` along a non-empty path, `get`'s fold
along the same path yields the default value: the deleted slot reads as a
miss and the default poisons the rest of the fold. -/
theorem deleteData_foldl_default (ps : List String) :
    ∀ v v2, ps ≠ [] → deleteData v ps = some v2 →
      List.foldl getStep v2 ps = defaultValue := by
  induction ps with
  | nil => intro v v2 hne _; exact absurd rfl hne
  | cons k rest ih =>
    intro v v2 _ h
    cases rest with
    | nil =>
      cases v with
      | undefined => exact absurd h (by simp [deleteData])
      | null => exact absurd h (by simp [deleteData])
      | obj fs =>
        simp only [deleteData, Option.some.injEq] at h
        rw [← h]
        cases hn : isNumericSegment k <;>
          simp [List.foldl, getStep, lookupStep, hn, lookupField_filter_ne, hitOrMiss]
      | arr xs =>
        cases hn : isNumericSegment k with
        | true =>
          by_cases hlt : segToNat k < xs.length
          · simp only [deleteData, hn, if_true, hlt, Option.some.injEq] at h
            rw [← h]
            simp [List.foldl, getStep, lookupStep, hn,
              getIndex_set_undefined xs (segToNat k) hlt, hitOrMiss]
          · simp only [deleteData, hn, if_true, hlt, if_false, Option.some.injEq] at h
            rw [← h]
            simp [List.foldl, getStep, lookupStep, hn, getIndex_ge xs (segToNat k) hlt,
              hitOrMiss]
        | false =>
          simp only [deleteData, hn, Bool.false_eq_true, if_false,
            Option.some.injEq] at h
          rw [← h]
          simp [List.foldl, getStep, lookupStep, hn]
      | str s =>
        simp only [deleteData, Option.some.injEq] at h
        rw [← h]
        simp [List.foldl]
        exact getStep_non_container _ k (by simp) (by simp)
      | num n =>
        simp only [deleteData, Option.some.injEq] at h
        rw [← h]
        simp [List.foldl]
        exact getStep_non_container _ k (by simp) (by simp)
      | bool b =>
        simp only [deleteData, Option.some.injEq] at h
        rw [← h]
        simp [List.foldl]
        exact getStep_non_container _ k (by simp) (by simp)
    | cons r rest2 =>
      have habsorb := foldl_getStep_default (r :: rest2)
      cases v with
      | undefined => exact absurd h (by simp [deleteData])
      | null => exact absurd h (by simp [deleteData])
      | obj fs =>
        simp only [deleteData] at h
        split at h
        case h_1 sub hsub =>
          simp only [Option.some.injEq] at h
          rw [← h]
          have hrne : rawGet (Value.obj fs) k ≠ Value.undefined := by
            intro hr
            rw [hr] at hsub
            exact absurd hsub
              (by rw [(deleteData_none_of_nullish (r :: rest2) (by simp)).1]; simp)
          have hsubne := deleteData_ne_undefined (r :: rest2) _ sub hsub hrne
          cases hn : isNumericSegment k with
          | true =>
            simp only [List.foldl]
            have : getStep (assignKey (Value.obj fs) k sub) k = defaultValue := by
              simp [assignKey, getStep, lookupStep, hn]
            rw [this]
            exact habsorb
          | false =>
            simp only [List.foldl]
            have : getStep (assignKey (Value.obj fs) k sub) k = sub := by
              simp [assignKey, getStep, lookupStep, hn, lookupField_setField,
                hitOrMiss_of_ne_undefined _ hsubne]
            rw [this]
            exact ih _ sub (by simp) hsub
        case h_2 => exact absurd h (by simp)
      | arr xs =>
        simp only [deleteData] at h
        split at h
        case h_1 sub hsub =>
          simp only [Option.some.injEq] at h
          rw [← h]
          have hrne : rawGet (Value.arr xs) k ≠ Value.undefined := by
            intro hr
            rw [hr] at hsub
            exact absurd hsub
              (by rw [(deleteData_none_of_nullish (r :: rest2) (by simp)).1]; simp)
          have hsubne := deleteData_ne_undefined (r :: rest2) _ sub hsub hrne
          cases hn : isNumericSegment k with
          | true =>
            have hidx : getIndex xs (segToNat k) ≠ Value.undefined := by
              intro hi
              exact hrne (by simp [rawGet, hn, hi])
            have hlt := getIndex_lt_of_ne_undefined xs (segToNat k) hidx
            simp only [List.foldl]
            have : getStep (assignKey (Value.arr xs) k sub) k = sub := by
              simp [assignKey, getStep, lookupStep, hn, padSet, hlt,
                getIndex_set xs (segToNat k) sub hlt, hitOrMiss_of_ne_undefined _ hsubne]
            rw [this]
            exact ih _ sub (by simp) hsub
          | false =>
            exact absurd hrne (by simp [rawGet, hn])
        case h_2 => exact absurd h (by simp)
      | str s =>
        simp only [deleteData] at h
        split at h
        case h_1 sub hsub =>
          rw [show rawGet (Value.str s) k = Value.undefined from rfl,
            (deleteData_none_of_nullish (r :: rest2) (by simp)).1] at hsub
          exact absurd hsub (by simp)
        case h_2 => exact absurd h (by simp)
      | num n =>
        simp only [deleteData] at h
        split at h
        case h_1 sub hsub =>
          rw [show rawGet (Value.num n) k = Value.undefined from rfl,
            (deleteData_none_of_nullish (r :: rest2) (by simp)).1] at hsub
          exact absurd hsub (by simp)
        case h_2 => exact absurd h (by simp)
      | bool b =>
        simp only [deleteData] at h
        split at h
        case h_1 sub hsub =>
          rw [show rawGet (Value.bool b) k = Value.undefined from rfl,
            (deleteData_none_of_nullish (r :: rest2) (by simp)).1] at hsub
          exact absurd hsub (by simp)
        case h_2 => exact absurd h (by simp)

/-! ### Table and handler-list lemmas -/

theorem tableFind_tableDelete {α : Type} (t : List (String × α)) (k : String) :
    tableFind (tableDelete t k) k = none := by
  induction t with
  | nil => rfl
  | cons p t ih =>
    obtain ⟨k2, v⟩ := p
    by_cases h : k2 = k
    · simpa [tableDelete, List.filter, bne, h] using ih
    · have hb : (k2 == k) = false := by simp [h]
      simpa [tableDelete, List.filter, bne, hb, tableFind] using ih

theorem tableFind_tableModify_self {α : Type} (t : List (String × α)) (k : String)
    (f : α → α) (l : α) (h : tableFind t k = some l) :
    tableFind (tableModify t k f) k = some (f l) := by
  induction t with
  | nil => simp [tableFind] at h
  | cons p t ih =>
    obtain ⟨k2, v⟩ := p
    cases hb : (k2 == k)
    · simp only [tableFind, hb] at h
      simpa [tableModify, tableFind, hb] using ih h
    · simp [tableFind, hb] at h
      simp [tableModify, tableFind, hb, h]

theorem tableFind_tableModify_isSome {α : Type} (t : List (String × α)) (k x : String)
    (f : α → α) :
    (tableFind (tableModify t k f) x).isSome = (tableFind t x).isSome := by
  induction t with
  | nil => rfl
  | cons p t ih =>
    obtain ⟨k2, v⟩ := p
    cases hb : (k2 == k)
    · cases hx : (k2 == x) <;> simp [tableModify, tableFind, hb, hx, ih]
    · cases hx : (k2 == x) <;> simp [tableModify, tableFind, hb, hx]

theorem tableFind_append {α : Type} (t t2 : List (String × α)) (x : String) :
    tableFind (t ++ t2) x =
      match tableFind t x with
      | some v => some v
      | none => tableFind t2 x := by
  induction t with
  | nil => simp [tableFind]
  | cons p t ih =>
    obtain ⟨k2, v⟩ := p
    cases hx : (k2 == x) <;> simp [tableFind, hx, ih]

theorem replaceFirst_length (l : List Handler) (h h2 : Handler) :
    (replaceFirst l h h2).length = l.length := by
  induction l with
  | nil => rfl
  | cons x xs ih =>
    cases hb : (x == h) <;> simp [replaceFirst, hb, ih]

theorem mem_replaceFirst (l : List Handler) (h h2 : Handler) (hm : h ∈ l) :
    h2 ∈ replaceFirst l h h2 := by
  induction l with
  | nil => simp at hm
  | cons x xs ih =>
    cases hb : (x == h)
    · rcases List.mem_cons.mp hm with rfl | hm2
      · simp at hb
      · simp [replaceFirst, hb]
        exact Or.inr (ih hm2)
    · simp [replaceFirst, hb]

/-- A present but falsy value stops the `get` traversal with the default
on the next step (falsy non-`undefined` values are never containers). -/
theorem getStep_falsy (v : Value) (p : String) (ht : truthy v = false)
    (hu : v ≠ .undefined) : getStep v p = defaultValue := by
  cases v with
  | undefined => exact absurd rfl hu
  | null => simp [getStep, lookupStep]
  | str s => exact getStep_non_container _ p (by simp) (by simp)
  | num n => exact getStep_non_container _ p (by simp) (by simp)
  | bool b => exact getStep_non_container _ p (by simp) (by simp)
  | arr xs => simp [truthy] at ht
  | obj fs => simp [truthy] at ht

theorem foldl_getStep_ne_undefined (ps : List String) :
    ∀ acc, acc ≠ .undefined → List.foldl getStep acc ps ≠ .undefined := by
  induction ps with
  | nil => intro acc h; simpa using h
  | cons p ps ih =>
    intro acc _
    simp only [List.foldl]
    exact ih (getStep acc p) (getStep_ne_undefined acc p)

/-- Unfolding of `setData` once its two validations have passed. -/
theorem setData_eq (data : Store) (binding : String) (value : Value)
    (hb : isBlank binding = false) (hv : value ≠ .undefined) :
    setData data binding value =
      match setPath (Value.obj data) (splitBinding binding) value with
      | some (Value.obj d2) => some d2
      | _ => none := by
  unfold setData
  rw [hb]
  cases value <;> first | rfl | exact absurd rfl hv

theorem setData_not_blank (data : Store) (binding : String) (value : Value)
    (d2 : Store) (h : setData data binding value = some d2) : isBlank binding = false := by
  cases hb : isBlank binding
  · rfl
  · unfold setData at h
    rw [hb] at h
    simp at h

theorem setData_not_undefined (data : Store) (binding : String) (value : Value)
    (d2 : Store) (h : setData data binding value = some d2) : value ≠ .undefined := by
  intro hv
  rw [hv] at h
  unfold setData at h
  split at h
  · exact absurd h (by simp)
  · exact absurd h (by simp)

/-! ### The claims -/

/-- C2: default-value totality of `get` — for every binding path, `get`
never returns the `undefined` marker (it is total by construction, so it
never throws), and on any path whose hook or any intermediate segment is
absent from the store (the strict traversal misses) it returns the
configured default, the empty string. -/
theorem C2_default_value_totality (data : Store) (binding : String) :
    get data binding ≠ Value.undefined
    ∧ (resolvePath (Value.obj data) (splitBinding binding) = none →
        get data binding = defaultValue) := by
  constructor
  · exact foldl_getStep_ne_undefined (splitBinding binding) (Value.obj data) (by simp)
  · intro h
    exact resolve_none_foldl (splitBinding binding) (Value.obj data) h

/-- Witness for C2 at a concrete unset path. -/
theorem C2_default_value_totality_witness :
    get [("a", Value.num 1)] "missing.x" ≠ Value.undefined
    ∧ get [("a", Value.num 1)] "missing.x" = defaultValue :=
  ⟨(C2_default_value_totality [("a", Value.num 1)] "missing.x").1,
   (C2_default_value_totality [("a", Value.num 1)] "missing.x").2 rfl⟩

/-- Reading the path `a.0` through `get` of a store whose `a` slot holds an object:
the numeric segment demands an array, so the default comes back. -/
theorem get_numkey_obj (d2 : Store) (gs : List (String × Value))
    (h : lookupField d2 "a" = Value.obj gs) : get d2 "a.0" = defaultValue := by
  show List.foldl getStep (Value.obj d2) (splitBinding "a.0") = defaultValue
  rw [show splitBinding "a.0" = ["a", "0"] from rfl]
  simp only [List.foldl]
  have h1 : getStep (Value.obj d2) "a" = Value.obj gs := by
    simp [getStep, lookupStep, show isNumericSegment "a" = false from rfl, h, hitOrMiss]
  rw [h1]
  simp [getStep, lookupStep, show isNumericSegment "0" = true from rfl]

/-- C9: numeric path segments are array-only in `get` — a purely numeric
segment is treated as an array index, so on any non-array value the step
yields the empty-string default; consequently a value stored by `set`
under a numeric object key (as `set` always does when the slot is not
already an array) is not readable back through `get` at the same
binding. -/
theorem C9_numeric_segments_array_only :
    (∀ (acc : Value) (part : String), isNumericSegment part = true →
      (∀ xs, acc ≠ Value.arr xs) → getStep acc part = defaultValue)
    ∧ (∀ (data d2 : Store) (v : Value),
        (∀ xs, lookupField data "a" ≠ Value.arr xs) →
        setData data "a.0" v = some d2 →
        get d2 "a.0" = defaultValue) := by
  constructor
  · intro acc part hn harr
    cases acc with
    | arr xs => exact absurd rfl (harr xs)
    | undefined => simp [getStep, lookupStep]
    | null => simp [getStep, lookupStep]
    | str s => simp [getStep, lookupStep, hn]
    | num n => simp [getStep, lookupStep, hn]
    | bool b => simp [getStep, lookupStep, hn]
    | obj fs => simp [getStep, lookupStep, hn]
  · intro data d2 v hobj h2
    have hv := setData_not_undefined data "a.0" v d2 h2
    rw [setData_eq data "a.0" v rfl hv] at h2
    rw [show splitBinding "a.0" = ["a", "0"] from rfl] at h2
    simp only [setPath, rawGet] at h2
    by_cases ht : truthy (lookupField data "a") = true
    · rw [if_neg (show ¬((!truthy (lookupField data "a")) = true) by simp [ht])] at h2
      by_cases ho : isObjectType (lookupField data "a") = true
      · rw [if_neg (show ¬((!isObjectType (lookupField data "a")) = true) by
          simp [ho])] at h2
        cases hcur : lookupField data "a" with
        | arr xs => exact absurd hcur (hobj xs)
        | obj fs =>
          rw [hcur] at h2
          simp only [assignKey, Option.some.injEq] at h2
          exact get_numkey_obj d2 _ (by rw [← h2]; exact lookupField_setField data "a" _)
        | null => rw [hcur] at ht; simp [truthy] at ht
        | undefined => rw [hcur] at ht; simp [truthy] at ht
        | str s => rw [hcur] at ho; simp [isObjectType] at ho
        | num n => rw [hcur] at ho; simp [isObjectType] at ho
        | bool b => rw [hcur] at ho; simp [isObjectType] at ho
      · have ho2 : isObjectType (lookupField data "a") = false := by
          cases hh : isObjectType (lookupField data "a")
          · rfl
          · exact absurd hh ho
        rw [if_pos (show (!isObjectType (lookupField data "a")) = true by
          simp [ho2])] at h2
        exact absurd h2 (by simp)
    · have ht2 : truthy (lookupField data "a") = false := by
        cases hh : truthy (lookupField data "a")
        · rfl
        · exact absurd hh ht
      rw [if_pos (show (!truthy (lookupField data "a")) = true by simp [ht2])] at h2
      simp only [assignKey, Option.some.injEq] at h2
      exact get_numkey_obj d2 _ (by rw [← h2]; exact lookupField_setField data "a" _)

/-- Witness for C9: the round trip at `a.0` — `set` stores `9` under the
numeric object key, `get` reads the default back. -/
theorem C9_numeric_segments_array_only_witness :
    getStep (Value.obj []) "0" = defaultValue
    ∧ get [("a", Value.obj [("0", Value.num 9)])] "a.0" = defaultValue :=
  ⟨C9_numeric_segments_array_only.1 (Value.obj []) "0" rfl (by intro xs h; cases h),
   C9_numeric_segments_array_only.2 [("a", Value.obj [("0", Value.num 7)])]
     [("a", Value.obj [("0", Value.num 9)])] (Value.num 9)
     (by intro xs h; cases h) rfl⟩

/-- C1: exact-path targeting of updates — with no trigger at `Q` linking
to the handler `h` registered at `P ≠ Q` (and `h` not also registered at
`Q`), `set(Q, v)` never invokes `h`; and when `h` sits exactly once in the
list at `P`, with no trigger at `P` referencing it, a successful
`set(P, v)` invokes `h` exactly once.  Handler lookup on mutation is exact
object-key string equality of the binding path — no wildcard or prefix
matching. -/
theorem invocations_countP (d2 : Store) (hs : HandlersTable) (ts : TriggersTable)
    (b : String) (h : Handler) :
    (invocations d2 hs ts b).countP (fun x => x.2.1 == h)
      = (handlerList hs b).countP (fun a => a == h)
        + (triggerList ts b).countP (fun t => t.handler == h) := by
  unfold invocations handleBindingUpdate
  rw [List.map_append, List.countP_append]
  congr 1
  · rw [List.map_map, List.countP_map]
    rfl
  · rw [List.map_map, List.countP_map]
    rfl

theorem C1_exact_path_targeting (data : Store) (hs : HandlersTable)
    (ts : TriggersTable) (P Q : String) (v w : Value) (h : Handler)
    (hPQ : P ≠ Q) (hreg : h ∈ handlerList hs P) :
    (h ∉ handlerList hs Q → (∀ t ∈ triggerList ts Q, t.handler ≠ h) →
      (setInvocations data hs ts Q w).countP (fun x => x.2.1 == h) = 0)
    ∧ ((handlerList hs P).count h = 1 → (∀ t ∈ triggerList ts P, t.handler ≠ h) →
      (setData data P v).isSome →
      (setInvocations data hs ts P v).countP (fun x => x.2.1 == h) = 1) := by
  constructor
  · intro hnot htr
    cases hsd : setData data Q w with
    | none => simp [setInvocations, hsd]
    | some d2 =>
      rw [show setInvocations data hs ts Q w = invocations d2 hs ts Q by
        unfold setInvocations; rw [hsd]]
      rw [invocations_countP]
      have h1 : (handlerList hs Q).countP (fun a => a == h) = 0 := by
        refine List.countP_eq_zero.mpr ?_
        intro a ha
        simp only [beq_iff_eq]
        intro hah
        exact hnot (hah ▸ ha)
      have h2 : (triggerList ts Q).countP (fun t => t.handler == h) = 0 := by
        refine List.countP_eq_zero.mpr ?_
        intro t htm
        simp only [beq_iff_eq]
        exact htr t htm
      rw [h1, h2]
  · intro hcount htr hsome
    cases hsd : setData data P v with
    | none => rw [hsd] at hsome; simp at hsome
    | some d2 =>
      rw [show setInvocations data hs ts P v = invocations d2 hs ts P by
        unfold setInvocations; rw [hsd]]
      rw [invocations_countP]
      have h1 : (handlerList hs P).countP (fun a => a == h) = 1 := hcount
      have h2 : (triggerList ts P).countP (fun t => t.handler == h) = 0 := by
        refine List.countP_eq_zero.mpr ?_
        intro t htm
        simp only [beq_iff_eq]
        exact htr t htm
      rw [h1, h2]

/-- Witness for C1 at a concrete two-binding configuration. -/
theorem C1_exact_path_targeting_witness :
    (setInvocations [] [("a", [(⟨some "e1", 0, "textContent"⟩ : Handler)])] []
        "b" (Value.num 2)).countP (fun x => x.2.1 == (⟨some "e1", 0, "textContent"⟩ : Handler)) = 0
    ∧ (setInvocations [] [("a", [(⟨some "e1", 0, "textContent"⟩ : Handler)])] []
        "a" (Value.num 1)).countP (fun x => x.2.1 == (⟨some "e1", 0, "textContent"⟩ : Handler)) = 1 := by
  have hthm := C1_exact_path_targeting [] [("a", [⟨some "e1", 0, "textContent"⟩])] []
    "a" "b" (Value.num 1) (Value.num 2) ⟨some "e1", 0, "textContent"⟩
    (by decide) (by simp [handlerList, tableFind])
  exact ⟨hthm.1 (by simp [handlerList, tableFind]) (by simp [triggerList, tableFind]),
    hthm.2 (by simp [handlerList, tableFind]) (by simp [triggerList, tableFind]) (by decide)⟩

def c4handlers (H : Handler) : HandlersTable := [("user", [H])]

def c4triggers (H : Handler) : TriggersTable :=
  [("user.profile.name", [⟨"user", H⟩])]

def c4data : Store :=
  [("user", Value.obj [("profile", Value.obj [("name", Value.str "old")])])]

/-- C4: trigger re-invocation semantics — with handler `H` registered at
binding `user` and a trigger registered (as `#processFunctionValue` does)
at `user.profile.name` referencing `H` with its own binding, a successful
`set("user.profile.name", x)` invokes `H` exactly once, handing it the
current value of `user` (not `x`); `set("user.profile.email", y)`, which
has no trigger, performs no invocation; and at a concrete store the value
handed over is the nested `user` object, distinct from `x`. -/
theorem C4_trigger_reinvocation (H : Handler) (data d1 : Store) (x y : Value)
    (h1 : setData data "user.profile.name" x = some d1) :
    setInvocations data (c4handlers H) (c4triggers H) "user.profile.name" x
      = [("user", H, get d1 "user")]
    ∧ setInvocations data (c4handlers H) (c4triggers H) "user.profile.email" y = []
    ∧ get ((setData c4data "user.profile.name" (Value.str "new")).getD []) "user"
      = Value.obj [("profile", Value.obj [("name", Value.str "new")])]
    ∧ Value.obj [("profile", Value.obj [("name", Value.str "new")])] ≠ Value.str "new" := by
  refine ⟨?_, ?_, rfl, by intro hc; cases hc⟩
  · unfold setInvocations
    rw [h1]
    rfl
  · unfold setInvocations
    cases hsd : setData data "user.profile.email" y with
    | none => rfl
    | some d2 => rfl

/-- Witness for C4 at the concrete store. -/
theorem C4_trigger_reinvocation_witness :
    setInvocations c4data (c4handlers ⟨some "e9", 3, "textContent"⟩)
        (c4triggers ⟨some "e9", 3, "textContent"⟩) "user.profile.name" (Value.str "new")
      = [("user", ⟨some "e9", 3, "textContent"⟩,
          get [("user", Value.obj [("profile", Value.obj [("name", Value.str "new")])])] "user")]
    ∧ setInvocations c4data (c4handlers ⟨some "e9", 3, "textContent"⟩)
        (c4triggers ⟨some "e9", 3, "textContent"⟩) "user.profile.email" (Value.str "e") = [] := by
  have hthm := C4_trigger_reinvocation ⟨some "e9", 3, "textContent"⟩ c4data
    [("user", Value.obj [("profile", Value.obj [("name", Value.str "new")])])]
    (Value.str "new") (Value.str "e") rfl
  exact ⟨hthm.1, hthm.2.1⟩

/-- Unfolding of `push` once its two validations have passed. -/
theorem push_eq (data : Store) (binding : String) (value : Value)
    (hb : isBlank binding = false) (hv : value ≠ .undefined) :
    push data binding value =
      match get data binding with
      | .str "" =>
        (match setData data binding (Value.arr [value]) with
         | some d2 => ⟨d2, true, false⟩
         | none => ⟨data, true, true⟩)
      | .arr xs => ⟨writeBack data binding (Value.arr (xs ++ [value])), true, false⟩
      | t => if truthy t then ⟨data, false, true⟩ else ⟨data, false, true⟩ := by
  unfold push
  rw [hb]
  cases value <;> first | rfl | exact absurd rfl hv

/-- C3 counterexample: with store `{a: 5}`, the current value at `a.b` is
the default, yet `push("a.b", 1)` leaves the store unchanged (the internal
`set` of the fresh array fails on the non-object intermediate `a`, only
logging an error, and the appended element lands in a local array the
store never sees) — while the update event still fires.  The claim's
"store afterwards holds [v]" is false here. -/
theorem C3_push_counterexample :
    get [("a", Value.num 5)] "a.b" = defaultValue
    ∧ push [("a", Value.num 5)] "a.b" (Value.num 1)
        = ⟨[("a", Value.num 5)], true, true⟩
    ∧ setData [("a", Value.num 5)] "a.b" (Value.arr [Value.num 1]) = none :=
  ⟨rfl, rfl, rfl⟩

/-- C3 (amended): `push(path, v)` on a default (unset) current value
initializes an empty array and appends, so that — provided the
initializing `set` succeeds — the store afterwards is exactly the store
`set(path, [v])` produces; if the initializing `set` fails its error is
logged and the store is unchanged (though the update event still fires);
and `push` on a non-array, non-default current value logs an error and
leaves the store unchanged. -/
theorem C3_push_amended (data : Store) (binding : String) (v : Value) :
    (∀ d2, v ≠ Value.undefined → get data binding = defaultValue →
      setData data binding (Value.arr [v]) = some d2 →
      push data binding v = ⟨d2, true, false⟩)
    ∧ (get data binding = defaultValue →
      setData data binding (Value.arr [v]) = none →
      isBlank binding = false → v ≠ Value.undefined →
      push data binding v = ⟨data, true, true⟩)
    ∧ (∀ t, get data binding = t → t ≠ defaultValue → (∀ xs, t ≠ Value.arr xs) →
      push data binding v = ⟨data, false, true⟩) := by
  refine ⟨?_, ?_, ?_⟩
  · intro d2 hv hget hset
    rw [push_eq data binding v (setData_not_blank data binding _ d2 hset) hv, hget]
    rw [show defaultValue = Value.str "" from rfl]
    rw [hset]
    rfl
  · intro hget hset hb hv
    rw [push_eq data binding v hb hv, hget]
    rw [show defaultValue = Value.str "" from rfl]
    rw [hset]
    rfl
  · intro t hget htd harr
    by_cases hb : isBlank binding
    · unfold push
      rw [hb]
      rfl
    · have hb2 : isBlank binding = false := by
        cases hbb : isBlank binding
        · rfl
        · exact absurd hbb hb
      by_cases hvu : v = Value.undefined
      · unfold push
        rw [hb2, hvu]
        rfl
      · rw [push_eq data binding v hb2 hvu, hget]
        split
        · exact absurd rfl htd
        · next xs => exact absurd rfl (harr xs)
        · split <;> rfl

/-- Witness for C3's amended theorem: a successful default-initializing
push, and an erroring push on a non-array value. -/
theorem C3_push_amended_witness :
    push [] "a" (Value.num 1) = ⟨[("a", Value.arr [Value.num 1])], true, false⟩
    ∧ push [("a", Value.str "x")] "a" (Value.num 2)
        = ⟨[("a", Value.str "x")], false, true⟩ :=
  ⟨(C3_push_amended [] "a" (Value.num 1)).1 [("a", Value.arr [Value.num 1])]
      (by intro hc; cases hc) rfl rfl,
   (C3_push_amended [("a", Value.str "x")] "a" (Value.num 2)).2.2 (Value.str "x") rfl
      (by simp [defaultValue]) (by intro xs hc; cases hc)⟩

/-- C5: `setInArray` upsert and `pull` removal — on a binding holding an
array, `setInArray` replaces the first query-matching element in place (or
appends the value when none matches), reporting the change at
`binding[index]` of the affected slot; `pull` removes exactly the first
matching element, reporting the change at the whole binding, and only
warns (non-fatally, leaving the array untouched) when nothing matches. -/
theorem C5_setInArray_pull (data : Store) (binding : String)
    (q : List (String × Value)) (v : Value) (xs : List Value)
    (hget : get data binding = Value.arr xs) :
    (∀ i, xs.findIdx? (matchesQuery q) = some i →
      setInArray data binding q v
        = ⟨writeBack data binding (Value.arr (xs.set i v)),
           some (binding ++ "[" ++ Nat.repr i ++ "]"), false, false⟩
      ∧ get (setInArray data binding q v).data binding = Value.arr (xs.set i v))
    ∧ (xs.findIdx? (matchesQuery q) = none →
      setInArray data binding q v
        = ⟨writeBack data binding (Value.arr (xs ++ [v])),
           some (binding ++ "[" ++ Nat.repr xs.length ++ "]"), false, false⟩
      ∧ get (setInArray data binding q v).data binding = Value.arr (xs ++ [v]))
    ∧ (∀ i, xs.findIdx? (matchesQuery q) = some i →
      pull data binding q
        = ⟨writeBack data binding (Value.arr (xs.eraseIdx i)),
           some binding, false, false⟩
      ∧ get (pull data binding q).data binding = Value.arr (xs.eraseIdx i))
    ∧ (xs.findIdx? (matchesQuery q) = none →
      pull data binding q = ⟨data, none, false, true⟩) := by
  have hund : ∀ ys : List Value, (Value.arr ys : Value) ≠ Value.undefined := by
    intro ys hc; cases hc
  refine ⟨?_, ?_, ?_, ?_⟩
  · intro i hidx
    have he : setInArray data binding q v
        = ⟨writeBack data binding (Value.arr (xs.set i v)),
           some (binding ++ "[" ++ Nat.repr i ++ "]"), false, false⟩ := by
      simp only [setInArray, hget, hidx]
    refine ⟨he, ?_⟩
    rw [he]
    exact get_writeBack data binding xs _ hget (hund _)
  · intro hidx
    have he : setInArray data binding q v
        = ⟨writeBack data binding (Value.arr (xs ++ [v])),
           some (binding ++ "[" ++ Nat.repr xs.length ++ "]"), false, false⟩ := by
      simp only [setInArray, hget, hidx]
    refine ⟨he, ?_⟩
    rw [he]
    exact get_writeBack data binding xs _ hget (hund _)
  · intro i hidx
    have he : pull data binding q
        = ⟨writeBack data binding (Value.arr (xs.eraseIdx i)),
           some binding, false, false⟩ := by
      simp only [pull, hget, hidx]
    refine ⟨he, ?_⟩
    rw [he]
    exact get_writeBack data binding xs _ hget (hund _)
  · intro hidx
    simp only [pull, hget, hidx]

/-- Witness for C5 at a concrete id-keyed list. -/
theorem C5_setInArray_pull_witness :
    get (setInArray [("l", Value.arr [Value.obj [("id", Value.num 1)],
        Value.obj [("id", Value.num 2)]])] "l" [("id", Value.num 2)]
        (Value.str "n")).data "l"
      = Value.arr [Value.obj [("id", Value.num 1)], Value.str "n"]
    ∧ pull [("l", Value.arr [Value.obj [("id", Value.num 1)]])] "l"
        [("id", Value.num 7)]
      = ⟨[("l", Value.arr [Value.obj [("id", Value.num 1)]])], none, false, true⟩ := by
  refine ⟨?_, ?_⟩
  · have hthm := (C5_setInArray_pull [("l", Value.arr [Value.obj [("id", Value.num 1)],
      Value.obj [("id", Value.num 2)]])] "l" [("id", Value.num 2)] (Value.str "n")
      [Value.obj [("id", Value.num 1)], Value.obj [("id", Value.num 2)]] rfl).1 1 rfl
    exact hthm.2
  · exact (C5_setInArray_pull [("l", Value.arr [Value.obj [("id", Value.num 1)]])] "l"
      [("id", Value.num 7)] (Value.str "n") [Value.obj [("id", Value.num 1)]] rfl).2.2.2 rfl

/-- C10: the empty query matches every element — `queryFunction` demands
every query key agree, vacuously true for `{}` — so on a non-empty array
`setInArray(binding, {}, v)` always replaces the first element and reports
the change at index 0, and `pull(binding, {})` always removes the first
element, reporting at the whole binding, never appending or warning. -/
theorem C10_empty_query_matches_all (data : Store) (binding : String)
    (v x : Value) (xs : List Value)
    (hget : get data binding = Value.arr (x :: xs)) :
    get (setInArray data binding [] v).data binding = Value.arr (v :: xs)
    ∧ (setInArray data binding [] v).fired
        = some (binding ++ "[" ++ Nat.repr 0 ++ "]")
    ∧ (setInArray data binding [] v).errored = false
    ∧ get (pull data binding []).data binding = Value.arr xs
    ∧ (pull data binding []).fired = some binding
    ∧ (pull data binding []).warned = false := by
  have hidx : (x :: xs).findIdx? (matchesQuery []) = some 0 := by
    simp [matchesQuery]
  have hthm := C5_setInArray_pull data binding [] v (x :: xs) hget
  obtain ⟨he1, hg1⟩ := hthm.1 0 hidx
  obtain ⟨he2, hg2⟩ := hthm.2.2.1 0 hidx
  refine ⟨?_, ?_, ?_, ?_, ?_, ?_⟩
  · simpa using hg1
  · rw [he1]
  · rw [he1]
  · simpa using hg2
  · rw [he2]
  · rw [he2]

/-- Witness for C10 on a concrete two-element array. -/
theorem C10_empty_query_matches_all_witness :
    get (setInArray [("l", Value.arr [Value.num 1, Value.num 2])] "l" []
        (Value.num 9)).data "l" = Value.arr [Value.num 9, Value.num 2]
    ∧ get (pull [("l", Value.arr [Value.num 1, Value.num 2])] "l" []).data "l"
        = Value.arr [Value.num 2] := by
  have hthm := C10_empty_query_matches_all [("l", Value.arr [Value.num 1, Value.num 2])]
    "l" (Value.num 9) (Value.num 1) [Value.num 2] rfl
  exact ⟨hthm.1, hthm.2.2.2.1⟩


def c7h : Handler := ⟨some "h1", 0, "textContent"⟩

/-- C7 counterexample: a handler whose `data-handler-id` no longer
resolves in the live document (the element was removed) is NOT pruned by
`#handle` — the record stays in its binding's list with its element
reference nulled; only the application of the result is skipped.  The
claim's "prunes the handler record from its binding's list" is false at
this input. -/
theorem C7_stale_counterexample :
    (handle [] [("b", [c7h])] "b" c7h).2 = none
    ∧ handlerList (handle [] [("b", [c7h])] "b" c7h).1 "b"
        = [({ element := none, funcId := 0, property := "textContent" } : Handler)]
    ∧ handlerList (handle [] [("b", [c7h])] "b" c7h).1 "b" ≠ [] :=
  ⟨rfl, rfl, by decide⟩

/-- C7 (amended): invoking a handler whose referenced element id does not
resolve in the live document skips the invocation — the evaluator's result
is not applied and no element is mutated — and never throws; but the
record is not pruned: the binding's list keeps its length and retains the
record with its element reference set to null.  (The prune-on-invocation
branch only covers a record holding a live element reference that sits
outside `document.body`.) -/
theorem C7_stale_reference_amended (doc : List DocElem) (hs : HandlersTable)
    (b : String) (h : Handler) (id : String)
    (he : h.element = some id) (hq : qsById doc id = none)
    (hm : h ∈ handlerList hs b) :
    (handle doc hs b h).2 = none
    ∧ (handlerList (handle doc hs b h).1 b).length = (handlerList hs b).length
    ∧ ({ h with element := none } : Handler) ∈ handlerList (handle doc hs b h).1 b := by
  have hfind : tableFind hs b = some (handlerList hs b) := by
    cases hf : tableFind hs b with
    | none => exfalso; rw [handlerList, hf] at hm; simp at hm
    | some l => simp [handlerList, hf]
  have hred : handle doc hs b h
      = (tableModify hs b (fun l => replaceFirst l h { h with element := none }), none) := by
    simp only [handle, he, hq]
  rw [hred]
  have hmod := tableFind_tableModify_self hs b
    (fun l => replaceFirst l h { h with element := none }) (handlerList hs b) hfind
  refine ⟨rfl, ?_, ?_⟩
  · simp only [handlerList, hmod, Option.getD_some]
    exact replaceFirst_length _ _ _
  · simp only [handlerList, hmod, Option.getD_some]
    exact mem_replaceFirst _ _ _ hm

/-- Witness for C7's amended theorem at the concrete stale handler. -/
theorem C7_stale_reference_amended_witness :
    (handle [] [("b", [c7h])] "b" c7h).2 = none
    ∧ (handlerList (handle [] [("b", [c7h])] "b" c7h).1 "b").length
        = (handlerList [("b", [c7h])] "b").length
    ∧ ({ c7h with element := none } : Handler)
        ∈ handlerList (handle [] [("b", [c7h])] "b" c7h).1 "b" :=
  C7_stale_reference_amended [] [("b", [c7h])] "b" c7h "h1" rfl rfl
    (by simp [handlerList, tableFind])

theorem mem_setInvocations (data : Store) (hs : HandlersTable) (ts : TriggersTable)
    (b : String) (v : Value) (p : String × Handler × Value)
    (hp : p ∈ setInvocations data hs ts b v) :
    ∃ d2, setData data b v = some d2 ∧ p ∈ invocations d2 hs ts b := by
  unfold setInvocations at hp
  cases hsd : setData data b v with
  | none => rw [hsd] at hp; simp at hp
  | some d2 =>
    rw [hsd] at hp
    refine ⟨d2, rfl, ?_⟩
    simpa using hp

theorem mem_invocations (d2 : Store) (hs : HandlersTable) (ts : TriggersTable)
    (b : String) (p : String × Handler × Value) (hp : p ∈ invocations d2 hs ts b) :
    p.2.1 ∈ handlerList hs b ∨ ∃ t ∈ triggerList ts b, t.handler = p.2.1 := by
  unfold invocations handleBindingUpdate at hp
  obtain ⟨q, hq, rfl⟩ := List.mem_map.mp hp
  rcases List.mem_append.mp hq with h1 | h2
  · obtain ⟨a, ha, rfl⟩ := List.mem_map.mp h1
    exact Or.inl ha
  · obtain ⟨t, htm, rfl⟩ := List.mem_map.mp h2
    exact Or.inr ⟨t, htm, rfl⟩

theorem foldl_getStep_falsy_hook (data : Store) (hook k2 : String)
    (rest2 : List String) (ht : truthy (lookupField data hook) = false) :
    List.foldl getStep (Value.obj data) (hook :: k2 :: rest2) = defaultValue := by
  have habs : List.foldl getStep defaultValue rest2 = defaultValue :=
    foldl_getStep_default rest2
  have hk2 : getStep defaultValue k2 = defaultValue := by
    simp [getStep, lookupStep_default]
  simp only [List.foldl]
  cases hn : isNumericSegment hook with
  | true =>
    have h1 : getStep (Value.obj data) hook = defaultValue := by
      simp [getStep, lookupStep, hn]
    rw [h1, hk2]
    exact habs
  | false =>
    by_cases hu : lookupField data hook = Value.undefined
    · have h1 : getStep (Value.obj data) hook = defaultValue := by
        simp [getStep, lookupStep, hn, hu, hitOrMiss]
      rw [h1, hk2]
      exact habs
    · have h1 : getStep (Value.obj data) hook = lookupField data hook := by
        simp [getStep, lookupStep, hn, hitOrMiss_of_ne_undefined _ hu]
      rw [h1, getStep_falsy _ k2 ht hu]
      exact habs


/-- C6: destroy cleans handlers — after a successful `destroy(B)` on a
multi-segment binding whose triggers do not reference the destroyed
handler, the handlers key `B` is absent from `review().handlers`, the data
at `B` reads back as the deleted default, and a later `set(B, v)` performs
no invocation of, and hence no DOM mutation through, any handler that was
registered exactly at `B`. -/
theorem C6_destroy_cleans_handlers (st st2 : Engine) (B : String) (h : Handler)
    (v : Value) (hd : destroy st B = some st2)
    (hm : h ∈ handlerList st.handlers B)
    (htr : ∀ t ∈ triggerList st.triggers B, t.handler ≠ h)
    (hlen : 2 ≤ (splitBinding B).length) :
    tableFind (review st2).handlers B = none
    ∧ get st2.data B = defaultValue
    ∧ (∀ p ∈ setInvocations st2.data st2.handlers st2.triggers B v, p.2.1 ≠ h)
    ∧ (∀ m ∈ setMutations st2.doc st2.data st2.handlers st2.triggers B v, m.1 ≠ h) := by
  cases hsp : splitBinding B with
  | nil => rw [hsp] at hlen; simp at hlen
  | cons hook rest =>
    cases rest with
    | nil => rw [hsp] at hlen; simp at hlen
    | cons k2 rest2 =>
      simp only [destroy, hsp] at hd
      have hext : (st2.handlers = tableDelete st.handlers B
          ∧ st2.triggers = st.triggers)
          ∧ ((truthy (lookupField st.data hook) = false ∧ st2.data = st.data)
            ∨ ∃ d2, deleteData (Value.obj st.data) (hook :: k2 :: rest2)
                = some (Value.obj d2) ∧ st2.data = d2) := by
        by_cases ht : truthy (lookupField st.data hook) = true
        · rw [if_pos ht] at hd
          cases hdel : deleteData (Value.obj st.data) (hook :: k2 :: rest2) with
          | none => rw [hdel] at hd; simp at hd
          | some dv =>
            rw [hdel] at hd
            cases dv with
            | obj d2 =>
              simp only [Option.some.injEq] at hd
              refine ⟨⟨?_, ?_⟩, Or.inr ⟨d2, rfl, ?_⟩⟩ <;> rw [← hd]
            | undefined => simp at hd
            | null => simp at hd
            | str s => simp at hd
            | num n => simp at hd
            | bool b => simp at hd
            | arr xs => simp at hd
        · rw [if_neg ht] at hd
          simp only [Option.some.injEq] at hd
          have ht2 : truthy (lookupField st.data hook) = false := by
            cases htt : truthy (lookupField st.data hook)
            · rfl
            · exact absurd htt ht
          refine ⟨⟨?_, ?_⟩, Or.inl ⟨ht2, ?_⟩⟩ <;> rw [← hd]
      obtain ⟨⟨hhandlers, htriggers⟩, hdata⟩ := hext
      have hgetd : get st2.data B = defaultValue := by
        rcases hdata with ⟨ht, heq⟩ | ⟨d2, hdel, heq⟩
        · rw [heq]
          show List.foldl getStep (Value.obj st.data) (splitBinding B) = defaultValue
          rw [hsp]
          exact foldl_getStep_falsy_hook st.data hook k2 rest2 ht
        · rw [heq]
          show List.foldl getStep (Value.obj d2) (splitBinding B) = defaultValue
          rw [hsp]
          exact deleteData_foldl_default (hook :: k2 :: rest2) _ _ (by simp) hdel
      have hnoinv : ∀ p ∈ setInvocations st2.data st2.handlers st2.triggers B v,
          p.2.1 ≠ h := by
        intro p hp
        obtain ⟨dd, -, hpi⟩ :=
          mem_setInvocations st2.data st2.handlers st2.triggers B v p hp
        rcases mem_invocations dd st2.handlers st2.triggers B p hpi with
          h1 | ⟨t, htm, heq⟩
        · exfalso
          rw [hhandlers, handlerList, tableFind_tableDelete] at h1
          simp at h1
        · rw [htriggers] at htm
          rw [← heq]
          exact htr t htm
      refine ⟨?_, hgetd, hnoinv, ?_⟩
      · show tableFind st2.handlers B = none
        rw [hhandlers]
        exact tableFind_tableDelete st.handlers B
      · intro m hmm
        unfold setMutations at hmm
        obtain ⟨p, hp, hfm⟩ := List.mem_filterMap.mp hmm
        have hm1 : m.1 = p.2.1 := by
          cases ho : (handle st2.doc st2.handlers p.1 p.2.1).2 with
          | none => rw [ho] at hfm; simp at hfm
          | some mu => rw [ho] at hfm; simp at hfm; rw [← hfm]
        rw [hm1]
        exact hnoinv p hp


def c6st : Engine :=
  ⟨[("a", Value.obj [("b", Value.str "x")])],
   [("a.b", [⟨some "e1", 0, "textContent"⟩])], [], [],
   [⟨"e1", true, false⟩]⟩

def c6st2 : Engine := ⟨[("a", Value.obj [])], [], [], [], []⟩

/-- Witness for C6 at a concrete engine state. -/
theorem C6_destroy_cleans_handlers_witness :
    tableFind (review c6st2).handlers "a.b" = none
    ∧ get c6st2.data "a.b" = defaultValue := by
  have hthm := C6_destroy_cleans_handlers c6st c6st2 "a.b"
    ⟨some "e1", 0, "textContent"⟩ (Value.num 3) rfl
    (by simp [c6st, handlerList, tableFind])
    (by intro t htm; simp [c6st, triggerList, tableFind] at htm)
    (by decide)
  exact ⟨hthm.1, hthm.2.1⟩

/-- C8 counterexample: two client-side `load` registrations (with empty
pipes, so promotion succeeds).  The first installs the native listener
(delegate key created), but neither registration appends a delegate
record — the record is stashed in `#stashedLoadEvent`, the second
registration overwriting the first — so "every subsequent registration
for the same kind only appends a delegate record" is false at this
input. -/
theorem C8_single_listener_counterexample :
    eventList (registerEvent (registerEvent ⟨[], [], none⟩ "load" "t1" [] 1 false).1
        "load" "t2" [] 2 false).1 "load" = []
    ∧ (registerEvent (registerEvent ⟨[], [], none⟩ "load" "t1" [] 1 false).1
        "load" "t2" [] 2 false).1.stashedLoadEvent = some ⟨"t2", 2, [], false⟩
    ∧ (registerEvent (registerEvent ⟨[], [], none⟩ "load" "t1" [] 1 false).1
        "load" "t2" [] 2 false).1.installed = ["load"] :=
  ⟨rfl, rfl, rfl⟩

/-- C8 (amended) helper: the well-formedness invariant only concerns the
`delegate` and `installed` fields, so stashing a load record preserves
it. -/
theorem DelegWF_stash (st : DelegationState) (ed : Option EventData)
    (hwf : DelegWF st) : DelegWF { st with stashedLoadEvent := ed } := hwf

theorem DelegWF_modify (st : DelegationState) (e : String)
    (g : List EventData → List EventData) (hwf : DelegWF st) :
    DelegWF { st with delegate := tableModify st.delegate e g } := by
  obtain ⟨hiff, hnd⟩ := hwf
  refine ⟨?_, hnd⟩
  intro x
  show ((tableFind (tableModify st.delegate e g) x).isSome = true)
    ↔ x ∈ st.installed
  rw [tableFind_tableModify_isSome]
  exact hiff x

theorem tableFind_singleton {α : Type} (e x : String) (v : α) :
    tableFind [(e, v)] x = if (e == x) = true then some v else none := by
  simp [tableFind]

theorem DelegWF_install (st : DelegationState) (e : String) (hwf : DelegWF st)
    (hnone : tableFind st.delegate e = none) :
    DelegWF { st with delegate := st.delegate ++ [(e, [])],
                      installed := st.installed ++ [e] } := by
  obtain ⟨hiff, hnd⟩ := hwf
  have hnotmem : e ∉ st.installed := by
    intro hmem
    have h2 := (hiff e).mpr hmem
    rw [hnone] at h2
    simp at h2
  constructor
  · intro x
    show ((tableFind (st.delegate ++ [(e, [])]) x).isSome = true)
      ↔ x ∈ st.installed ++ [e]
    rw [tableFind_append]
    cases hfx : tableFind st.delegate x with
    | some l =>
      constructor
      · intro _
        exact List.mem_append.mpr (Or.inl ((hiff x).mp (by rw [hfx]; rfl)))
      · intro _
        simp
    | none =>
      rw [tableFind_singleton]
      have hx2 : ¬ x ∈ st.installed := by
        intro hmem
        have h2 := (hiff x).mpr hmem
        rw [hfx] at h2
        simp at h2
      by_cases hx : e = x
      · simp [hx]
      · have hb : (e == x) = false := by simp [hx]
        rw [hb]
        simp only [Bool.false_eq_true, if_false]
        constructor
        · intro h2; simp at h2
        · intro h2
          exfalso
          rcases List.mem_append.mp h2 with h3 | h3
          · exact hx2 h3
          · rw [List.mem_singleton] at h3
            exact hx (h3.symm)
  · rw [List.nodup_append]
    refine ⟨hnd, List.nodup_singleton e, ?_⟩
    intro a ha hb
    rw [List.mem_singleton] at hb
    exact hnotmem (hb ▸ ha)

/-- C8 (amended): starting from a well-formed delegation state, a
registration installs the native listener exactly when the event kind has
no delegate entry yet — so each kind's listener is installed at most once,
and a registration for an already-known kind installs nothing.  When the
pipe promotion succeeds, every kind except a client-side `load` gets
exactly one delegate record appended to its list, reusing the installed
listener (a client-side `load` registration instead replaces the stashed
load record); when a `null` pipe entry makes the promotion throw, the
`TypeError` escapes after the install step, so no record is stored and no
stash is touched — the listener-uniqueness invariant still holds. -/
theorem C8_single_listener_amended (st : DelegationState) (e t : String)
    (pipe : List (String × Value)) (f : Nat) (pd : Bool) (hwf : DelegWF st) :
    DelegWF (registerEvent st e t pipe f pd).1
    ∧ ((tableFind st.delegate e).isSome →
        (registerEvent st e t pipe f pd).1.installed = st.installed)
    ∧ ((tableFind st.delegate e).isNone →
        (registerEvent st e t pipe f pd).1.installed = st.installed ++ [e])
    ∧ (registerEvent st e t pipe f pd).1.installed.count e ≤ 1
    ∧ (∀ pipe2, promotePipe pipe = some pipe2 → e ≠ "load" →
        eventList (registerEvent st e t pipe f pd).1 e
          = eventList st e ++ [⟨t, f, pipe2, pd⟩]
        ∧ (registerEvent st e t pipe f pd).2 = false)
    ∧ (promotePipe pipe = none →
        (registerEvent st e t pipe f pd).2 = true
        ∧ (registerEvent st e t pipe f pd).1.stashedLoadEvent = st.stashedLoadEvent
        ∧ eventList (registerEvent st e t pipe f pd).1 e = eventList st e) := by
  obtain ⟨hiff, hnd⟩ := hwf
  have hwfI : DelegWF (installListener st e) := by
    unfold installListener
    by_cases hs : (tableFind st.delegate e).isSome = true
    · rw [if_pos hs]
      exact ⟨hiff, hnd⟩
    · rw [if_neg hs]
      exact DelegWF_install st e ⟨hiff, hnd⟩ (by
        cases hfe : tableFind st.delegate e with
        | none => rfl
        | some l => rw [hfe] at hs; simp at hs)
  have hinst1 : (tableFind st.delegate e).isSome →
      (installListener st e).installed = st.installed := by
    intro hs
    unfold installListener
    rw [if_pos hs]
  have hinst2 : (tableFind st.delegate e).isNone →
      (installListener st e).installed = st.installed ++ [e] := by
    intro hn
    rw [Option.isNone_iff_eq_none] at hn
    unfold installListener
    rw [if_neg (by rw [hn]; simp)]
  have hcount : (installListener st e).installed.count e ≤ 1 :=
    List.nodup_iff_count_le_one.mp hwfI.2 e
  have htf : tableFind (installListener st e).delegate e = some (eventList st e) := by
    unfold installListener
    by_cases hs : (tableFind st.delegate e).isSome = true
    · rw [if_pos hs]
      obtain ⟨l, hl⟩ := Option.isSome_iff_exists.mp hs
      rw [hl]
      rw [show eventList st e = l by rw [eventList, hl]; rfl]
    · rw [if_neg hs]
      have hs2 : tableFind st.delegate e = none := by
        cases hfe : tableFind st.delegate e with
        | none => rfl
        | some l => rw [hfe] at hs; simp at hs
      show tableFind (st.delegate ++ [(e, [])]) e = some (eventList st e)
      rw [tableFind_append, hs2, tableFind_singleton]
      rw [show eventList st e = [] by rw [eventList, hs2]; rfl]
      simp
  have hstash : (installListener st e).stashedLoadEvent = st.stashedLoadEvent := by
    unfold installListener
    by_cases hs : (tableFind st.delegate e).isSome = true
    · rw [if_pos hs]
    · rw [if_neg hs]
  cases hpp : promotePipe pipe with
  | none =>
    have hred : registerEvent st e t pipe f pd = (installListener st e, true) := by
      unfold registerEvent
      rw [hpp]
    rw [hred]
    refine ⟨hwfI, hinst1, hinst2, hcount, ?_, ?_⟩
    · intro pipe2 hp2
      exact absurd hp2 (by simp)
    · intro _
      refine ⟨rfl, hstash, ?_⟩
      rw [eventList, htf]
      rfl
  | some pipe2 =>
    have hred : registerEvent st e t pipe f pd
        = (registerEventCore (installListener st e) e ⟨t, f, pipe2, pd⟩, false) := by
      unfold registerEvent
      rw [hpp]
    rw [hred]
    by_cases he : (e == "load") = true
    · have hredL : registerEventCore (installListener st e) e ⟨t, f, pipe2, pd⟩
          = { installListener st e with stashedLoadEvent := some ⟨t, f, pipe2, pd⟩ } := by
        unfold registerEventCore
        rw [if_pos he]
      rw [hredL]
      refine ⟨DelegWF_stash _ _ hwfI, hinst1, hinst2, hcount, ?_, ?_⟩
      · intro pipe3 hp3 hne
        exact absurd (by simpa using he) hne
      · intro hn
        exact absurd hn (by simp)
    · have hredL : registerEventCore (installListener st e) e ⟨t, f, pipe2, pd⟩
          = { installListener st e with
                delegate := (tableModify (installListener st e).delegate e
                  (fun l => l ++ [⟨t, f, pipe2, pd⟩])) } := by
        unfold registerEventCore
        rw [if_neg he]
      rw [hredL]
      refine ⟨DelegWF_modify _ e _ hwfI, hinst1, hinst2, hcount, ?_, ?_⟩
      · intro pipe3 hp3 _
        simp only [Option.some.injEq] at hp3
        rw [← hp3]
        refine ⟨?_, rfl⟩
        show (tableFind (tableModify (installListener st e).delegate e
            (fun l => l ++ [⟨t, f, pipe2, pd⟩])) e).getD []
          = eventList st e ++ [⟨t, f, pipe2, pd⟩]
        rw [tableFind_tableModify_self _ e _ (eventList st e) htf]
        rfl
      · intro hn
        exact absurd hn (by simp)

/-- Witness for C8's amended theorem: a first `click` registration on the
empty client state installs the listener once and appends the record, and
a registration whose pipe holds a `null` entry lets the `TypeError`
escape. -/
theorem C8_single_listener_amended_witness :
    DelegWF (registerEvent ⟨[], [], none⟩ "click" "d1" [] 0 false).1
    ∧ (registerEvent ⟨[], [], none⟩ "click" "d1" [] 0 false).1.installed
        = [] ++ ["click"]
    ∧ eventList (registerEvent ⟨[], [], none⟩ "click" "d1" [] 0 false).1 "click"
        = eventList ⟨[], [], none⟩ "click" ++ [⟨"d1", 0, [], false⟩]
    ∧ (registerEvent ⟨[], [], none⟩ "click" "d2" [("x", Value.null)] 1 false).2
        = true := by
  have hwf : DelegWF ⟨[], [], none⟩ := by
    constructor
    · intro x
      simp [tableFind]
    · exact List.nodup_nil
  have h1 := C8_single_listener_amended ⟨[], [], none⟩ "click" "d1" [] 0 false hwf
  have h2 := C8_single_listener_amended ⟨[], [], none⟩ "click" "d2"
    [("x", Value.null)] 1 false hwf
  exact ⟨h1.1, h1.2.2.1 rfl, (h1.2.2.2.2.1 [] rfl (by decide)).1,
    (h2.2.2.2.2.2 rfl).1⟩

end Materia
